import Mathlib

/-!
Verification of the frame codec in `src/storage/bamboo/src/frame.rs` of the
panda-db repository.

The Rust code scans a byte buffer through a `Cursor<&[u8]>`: a read-only
buffer plus a mutable read position.  We embed the cursor-threading style as
explicit state passing: a computation of type `M α` takes the current read
position and returns an `Except Error α` outcome together with the position
after the call (errors propagate with the position reached at the point of
failure, exactly as Rust's `?` operator leaves the mutated cursor behind).
The buffer itself is passed as an ordinary parameter, since nothing mutates
it.  Bytes are modelled as `Nat` (all values produced by the source are
below 256; arithmetic on positions and lengths cannot overflow at the sizes
involved, so `Nat` is faithful to the `usize`/`u64` arithmetic used).
-/

namespace Bamboo

/-- Error taxonomy of `frame.rs`.  `Incomplete` signals that more data is
needed; `Other` carries a protocol-violation message (the source boxes a
string into `crate::Error`).  `Panicked` is not a Rust `Err` value: it marks
the `unimplemented!()` abort reached by `parse` on an unmapped marker byte,
so that the embedding can record that `parse` neither succeeds nor returns
an ordinary error there. -/
inductive Error where
  | Incomplete : Error
  | Other : String → Error
  | Panicked : Error
deriving Repr, DecidableEq

/-- The `Frame` enum of `frame.rs`.  Byte payloads (`Vec<u8>`, `Bytes`) are
`List Nat`; `String` payloads are Lean strings. -/
inductive Frame where
  | FixedLength : List Nat → Frame
  | VariantLength : List Nat → Frame
  | Sample : List Nat → Frame
  | Command : List Nat → Frame
  | Simple : String → Frame
  | Error : String → Frame
  | Integer : Nat → Frame
  | Bulk : List Nat → Frame
  | Null : Frame
  | Array : List Frame → Frame
deriving Repr

/-- Marker constants from `src/storage/bamboo/src/lib.rs`: `b'-'`. -/
def SAMPLE_MARK : Nat := 45

/-- Marker constant from `lib.rs`: `b'#'` (declared, unused by the codec). -/
def REPLICATE_MARK : Nat := 35

/-- Marker constant from `lib.rs`: `b'+'`. -/
def COMMAND_MARK : Nat := 43

/-- Marker constant from `lib.rs`: `b'@'`. -/
def VARIANT_LENGTH_MARK : Nat := 64

/-- A cursor computation: current position in, outcome and final position
out. -/
def M (α : Type) : Type := Nat → Except Error α × Nat

/-- Return a value, leaving the position unchanged (Rust `Ok(v)`). -/
def M.pure {α : Type} (a : α) : M α := fun pos => (.ok a, pos)

/-- Sequence two cursor computations; an error short-circuits, keeping the
position reached so far (Rust `?`). -/
def M.bind {α β : Type} (x : M α) (f : α → M β) : M β := fun pos =>
  match x pos with
  | (.ok a, p) => f a p
  | (.error e, p) => (.error e, p)

/-- Fail with an error, leaving the position unchanged (Rust `Err(e)`). -/
def M.throw {α : Type} (e : Error) : M α := fun pos => (.error e, pos)

/-- Rust `Cursor::set_position`: sets the position absolutely. -/
def set_position (p : Nat) : M Unit := fun _ => (.ok (), p)

/-- Rust `Cursor::position`: reads the current position. -/
def position : M Nat := fun pos => (.ok pos, pos)

/-- The slice `l[a..b]` (total: truncates at the end of the list; every use
below is guarded by the same bounds checks the Rust code performs before
slicing). -/
def listSlice (l : List Nat) (a b : Nat) : List Nat := (l.drop a).take (b - a)

/-- `u32::from_le_bytes([b0, b1, b2, b3])`. -/
def u32_from_le (b0 b1 b2 b3 : Nat) : Nat :=
  b0 + 256 * b1 + 65536 * b2 + 16777216 * b3

/-- Modelled from the spec: the pin of the `atoi` crate version lives in the
repository's `Cargo.toml`, which is not under `src/`, so the exact behaviour
of `atoi::<u64>` is taken from the spec's words: "scans a line, then parses
it as an unsigned 64-bit decimal; fails with a malformed-data error if the
line is not a valid non-negative integer".  The slice must be a non-empty
run of ASCII digits whose value fits in a `u64`. -/
def atoi_u64 (line : List Nat) : Option Nat :=
  if line = [] then none
  else if line.all (fun b => decide (48 ≤ b) && decide (b ≤ 57)) then
    let v := line.foldl (fun acc b => acc * 10 + (b - 48)) 0
    if v < 18446744073709551616 then some v else none
  else none

/-- `peek_u8`: next byte without advancing; `Incomplete` if none remain. -/
def peek_u8 (buf : List Nat) : M Nat := fun pos =>
  if buf.length ≤ pos then (.error .Incomplete, pos)
  else (.ok (buf.getD pos 0), pos)

/-- `get_u8`: consume and return the next byte; `Incomplete` if none
remain. -/
def get_u8 (buf : List Nat) : M Nat := fun pos =>
  if buf.length ≤ pos then (.error .Incomplete, pos)
  else (.ok (buf.getD pos 0), pos + 1)

/-- `skip(n)`: advance by `n` bytes, or fail `Incomplete` leaving the
position unchanged when fewer than `n` bytes remain. -/
def skip (buf : List Nat) (n : Nat) : M Unit := fun pos =>
  if buf.length - pos < n then (.error .Incomplete, pos)
  else (.ok (), pos + n)

/-- The scanning loop of `get_line`: first index `j` in `[i, stop)` with
`buf[j] = CR` and `buf[j+1] = LF`.  The extra counter argument `k` bounds
the iteration count structurally; `findCRLF` below instantiates it with
`stop - i`, which makes it exactly the Rust `for i in start..end` loop. -/
def findCRLFAux (buf : List Nat) (stop : Nat) : Nat → Nat → Option Nat
  | _, 0 => none
  | i, k + 1 =>
    if i < stop then
      if buf.getD i 0 = 13 ∧ buf.getD (i + 1) 0 = 10 then some i
      else findCRLFAux buf stop (i + 1) k
    else none

/-- First CRLF position in `[i, stop)`. -/
def findCRLF (buf : List Nat) (i stop : Nat) : Option Nat :=
  findCRLFAux buf stop i (stop - i)

/-- `get_line`: scan from the current position up to the second-to-last
byte for a CRLF pair; on success return the bytes before it and move just
past the LF, otherwise fail `Incomplete` without moving.  (The source
computes `end = len - 1`; it is only ever called with a non-empty buffer,
where `Nat` truncated subtraction agrees with `usize`.) -/
def get_line (buf : List Nat) : M (List Nat) := fun pos =>
  match findCRLF buf pos (buf.length - 1) with
  | some i => (.ok (listSlice buf pos i), i + 2)
  | none => (.error .Incomplete, pos)

/-- `get_decimal`: scan a line and parse it with `atoi::<u64>`. -/
def get_decimal (buf : List Nat) : M Nat :=
  M.bind (get_line buf) (fun line =>
    match atoi_u64 line with
    | some v => M.pure v
    | none => M.throw (.Other "protocol error; invalid frame format"))

/-- `get_length_info`: read (without consuming) a 4-byte little-endian
length at the current position; `Incomplete` if fewer than 4 bytes are
available there, or if the declared payload would extend past the end of
the buffer.  Does not move the position. -/
def get_length_info (buf : List Nat) : M Nat := fun pos =>
  if buf.length - pos < 4 then (.error .Incomplete, pos)
  else
    let len_expect := u32_from_le (buf.getD pos 0) (buf.getD (pos + 1) 0)
      (buf.getD (pos + 2) 0) (buf.getD (pos + 3) 0)
    if buf.length - pos < len_expect + 4 then (.error .Incomplete, pos)
    else (.ok len_expect, pos)

/-- `get_vec_of_length`: the payload slice `buf[pos+4 .. pos+4+len]` of a
length-prefixed frame, the length being validated by `get_length_info`.
Does not move the position. -/
def get_vec_of_length (buf : List Nat) : M (List Nat) := fun pos =>
  let start := pos + 4
  match get_length_info buf pos with
  | (.ok len, p) => (.ok (listSlice buf start (len + start)), p)
  | (.error e, p) => (.error e, p)

/-- Run an action `n` times in sequence, discarding results: the body of
`for _ in 0..len { Frame::check(src)?; }`. -/
def repeatM (act : M Unit) : Nat → M Unit
  | 0 => M.pure ()
  | n + 1 => M.bind act (fun _ => repeatM act n)

/-- `Frame::check`: can one complete frame be decoded at the current
position?  `fuel` bounds the recursion depth through nested arrays (any
value larger than the nesting depth gives the Rust behaviour; the wrapper
`checkRun` below supplies a sufficient bound). -/
def check (buf : List Nat) : Nat → M Unit
  | 0 => M.throw .Incomplete
  | fuel + 1 =>
    M.bind (get_u8 buf) (fun b =>
      if b = VARIANT_LENGTH_MARK then
        M.bind (get_length_info buf) (fun r => set_position (r + 4 + 1))
      else if b = SAMPLE_MARK then
        M.bind (get_line buf) (fun _ => M.pure ())
      else if b = COMMAND_MARK then
        M.bind (get_line buf) (fun _ => M.pure ())
      else if b = 58 then
        M.bind (get_decimal buf) (fun _ => M.pure ())
      else if b = 36 then
        M.bind (peek_u8 buf) (fun c =>
          if c = 45 then
            skip buf 4
          else
            M.bind (get_decimal buf) (fun len => skip buf (len + 2)))
      else if b = 42 then
        M.bind (get_decimal buf) (fun len => repeatM (check buf fuel) len)
      else
        M.throw (.Other ("protocol error; invalid frame type byte `"
          ++ toString b ++ "`")))

/-- Parse an action `n` times in sequence, collecting the results in order:
the body of `for _ in 0..len { out.push(Frame::parse(src)?); }`. -/
def parseTimes (act : M Frame) : Nat → M (List Frame)
  | 0 => M.pure []
  | n + 1 =>
    M.bind act (fun f =>
      M.bind (parseTimes act n) (fun rest => M.pure (f :: rest)))

/-- `String::from_utf8` / `str::from_utf8`: strict RFC 3629 UTF-8 decoding
(rejecting overlong forms, surrogates and code points above `0x10FFFF`),
as enforced by the Rust standard library. -/
def utf8_decode : List Nat → Option (List Char)
  | [] => some []
  | b :: rest =>
    if b < 128 then
      match utf8_decode rest with
      | some cs => some (Char.ofNat b :: cs)
      | none => none
    else if b < 194 then none
    else if b < 224 then
      match rest with
      | c1 :: rest1 =>
        if 128 ≤ c1 ∧ c1 < 192 then
          match utf8_decode rest1 with
          | some cs => some (Char.ofNat ((b - 192) * 64 + (c1 - 128)) :: cs)
          | none => none
        else none
      | [] => none
    else if b < 240 then
      match rest with
      | c1 :: c2 :: rest2 =>
        if 128 ≤ c1 ∧ c1 < 192 ∧ 128 ≤ c2 ∧ c2 < 192 then
          let cp := (b - 224) * 4096 + (c1 - 128) * 64 + (c2 - 128)
          if 2048 ≤ cp ∧ (cp < 55296 ∨ 57344 ≤ cp) then
            match utf8_decode rest2 with
            | some cs => some (Char.ofNat cp :: cs)
            | none => none
          else none
        else none
      | _ => none
    else if b < 245 then
      match rest with
      | c1 :: c2 :: c3 :: rest3 =>
        if 128 ≤ c1 ∧ c1 < 192 ∧ 128 ≤ c2 ∧ c2 < 192 ∧ 128 ≤ c3 ∧ c3 < 192 then
          let cp := (b - 240) * 262144 + (c1 - 128) * 4096
            + (c2 - 128) * 64 + (c3 - 128)
          if 65536 ≤ cp ∧ cp ≤ 1114111 then
            match utf8_decode rest3 with
            | some cs => some (Char.ofNat cp :: cs)
            | none => none
          else none
        else none
      | _ => none
    else none

/-- `String::from_utf8` on a byte vector, as an `Option`. -/
def from_utf8 (l : List Nat) : Option String :=
  match utf8_decode l with
  | some cs => some (String.mk cs)
  | none => none

/-- `Frame::parse`: materialize the frame at the current position.  Same
fuel discipline as `check`. -/
def parse (buf : List Nat) : Nat → M Frame
  | 0 => M.throw .Incomplete
  | fuel + 1 =>
    M.bind (get_u8 buf) (fun b =>
      if b = VARIANT_LENGTH_MARK then
        M.bind (get_vec_of_length buf) (fun data =>
          M.pure (.VariantLength data))
      else if b = 43 then
        M.bind (get_line buf) (fun line =>
          match from_utf8 line with
          | some s => M.pure (.Simple s)
          | none => M.throw (.Other "protocol error; invalid frame format"))
      else if b = 45 then
        M.bind (get_line buf) (fun line =>
          match from_utf8 line with
          | some s => M.pure (.Error s)
          | none => M.throw (.Other "protocol error; invalid frame format"))
      else if b = 58 then
        M.bind (get_decimal buf) (fun len => M.pure (.Integer len))
      else if b = 36 then
        M.bind (peek_u8 buf) (fun c =>
          if c = 45 then
            M.bind (get_line buf) (fun line =>
              if line = [45, 49] then M.pure .Null
              else M.throw (.Other "protocol error; invalid frame format"))
          else
            M.bind (get_decimal buf) (fun len =>
              M.bind position (fun pos =>
                if buf.length - pos < len + 2 then M.throw .Incomplete
                else
                  M.bind (skip buf (len + 2)) (fun _ =>
                    M.pure (.Bulk (listSlice buf pos (pos + len)))))))
      else if b = 42 then
        M.bind (get_decimal buf) (fun len =>
          M.bind (parseTimes (parse buf fuel) len) (fun out =>
            M.pure (.Array out)))
      else
        M.throw .Panicked)

/-- `Frame::check` run from a given position with enough fuel for any frame
that fits in the buffer. -/
def checkRun (buf : List Nat) (pos : Nat) : Except Error Unit × Nat :=
  check buf (2 * buf.length + 2) pos

/-- `Frame::parse` run from a given position with enough fuel for any frame
that fits in the buffer. -/
def parseRun (buf : List Nat) (pos : Nat) : Except Error Frame × Nat :=
  parse buf (2 * buf.length + 2) pos

/-- One hexadecimal digit, lower case. -/
def hexDigit (n : Nat) : Char :=
  if n < 10 then Char.ofNat (48 + n) else Char.ofNat (87 + n)

/-- One byte of the `Debug` rendering of `bytes::Bytes` (external crate;
modelled as the usual byte-string escape, which no claim depends on). -/
def byte_debug_one (b : Nat) : String :=
  if b = 10 then "\\n" else if b = 13 then "\\r" else if b = 9 then "\\t"
  else if b = 92 then "\\\\" else if b = 34 then "\\\""
  else if 32 ≤ b ∧ b < 127 then String.mk [Char.ofNat b]
  else String.mk [Char.ofNat 92, Char.ofNat 120,
    hexDigit (b / 16), hexDigit (b % 16)]

/-- `Debug` rendering of a `Bytes` payload. -/
def byte_debug (bytes : List Nat) : String :=
  "b\"" ++ String.join (bytes.map byte_debug_one) ++ "\""

mutual
/-- `impl fmt::Display for Frame`, as the string the formatter receives.
Note the `Array` arm of the source: the element write is inside the
`if i > 0` guard, so the first element is never rendered. -/
def display : Frame → String
  | .Sample _ => "sample data"
  | .Command _ => "command"
  | .Simple response => response
  | .Error msg => "error: " ++ msg
  | .Integer num => toString num
  | .Bulk msg =>
    match from_utf8 msg with
    | some string => string
    | none => byte_debug msg
  | .Null => "(nil)"
  | .Array parts =>
    match parts with
    | [] => ""
    | _ :: rest => displayTail rest
  | .FixedLength _ => "fixed length"
  | .VariantLength _ => "variant length"

/-- The iterations of the `Array` display loop with index `i > 0`: each
remaining element is rendered preceded by a space. -/
def displayTail : List Frame → String
  | [] => ""
  | p :: rest => " " ++ display p ++ displayTail rest
end

/-- The successive-parses relation used to state the array claims:
`chainParses buf fuel pos l pos'` says that starting at `pos` the frames in
`l` parse one after another, ending exactly at `pos'`. -/
def chainParses (buf : List Nat) (fuel : Nat) : Nat → List Frame → Nat → Prop
  | pos, [], pos' => pos = pos'
  | pos, f :: fs, pos' =>
    ∃ p, parse buf fuel pos = (.ok f, p) ∧ chainParses buf fuel p fs pos'

/-- A cursor computation is monotone when it never moves the read position
backward, whether it succeeds or fails. -/
def M.mono {α : Type} (x : M α) : Prop := ∀ pos, pos ≤ (x pos).2

end Bamboo

namespace Bamboo

/-! ### Basic lemmas about the cursor monad and the scanning helpers -/

theorem M.bind_apply {α β : Type} (x : M α) (f : α → M β) (pos : Nat) :
    M.bind x f pos = match x pos with
      | (.ok a, p) => f a p
      | (.error e, p) => (.error e, p) := rfl

theorem M.pure_apply {α : Type} (a : α) (pos : Nat) :
    M.pure a pos = (.ok a, pos) := rfl

theorem M.throw_apply {α : Type} (e : Error) (pos : Nat) :
    (M.throw e : M α) pos = (.error e, pos) := rfl

theorem M.bind_ok_inv {α β : Type} {x : M α} {f : α → M β} {pos : Nat}
    {b : β} {q : Nat} (h : M.bind x f pos = (.ok b, q)) :
    ∃ a p, x pos = (.ok a, p) ∧ f a p = (.ok b, q) := by
  rw [M.bind_apply] at h
  rcases hx : x pos with ⟨r, p⟩
  rw [hx] at h
  cases r with
  | ok a => exact ⟨a, p, rfl, h⟩
  | error e => simp at h

theorem get_u8_of_lt {buf : List Nat} {pos : Nat} (h : pos < buf.length) :
    get_u8 buf pos = (.ok (buf.getD pos 0), pos + 1) := by
  unfold get_u8
  rw [if_neg (by omega)]

theorem get_u8_ok {buf : List Nat} {pos b p : Nat}
    (h : get_u8 buf pos = (.ok b, p)) :
    pos < buf.length ∧ b = buf.getD pos 0 ∧ p = pos + 1 := by
  unfold get_u8 at h
  by_cases hl : buf.length ≤ pos
  · rw [if_pos hl] at h
    simp at h
  · rw [if_neg hl] at h
    simp only [Prod.mk.injEq, Except.ok.injEq] at h
    exact ⟨by omega, h.1.symm, h.2.symm⟩

theorem peek_u8_ok {buf : List Nat} {pos c p : Nat}
    (h : peek_u8 buf pos = (.ok c, p)) :
    pos < buf.length ∧ c = buf.getD pos 0 ∧ p = pos := by
  unfold peek_u8 at h
  by_cases hl : buf.length ≤ pos
  · rw [if_pos hl] at h
    simp at h
  · rw [if_neg hl] at h
    simp only [Prod.mk.injEq, Except.ok.injEq] at h
    exact ⟨by omega, h.1.symm, h.2.symm⟩

theorem getD_mem : ∀ (buf : List Nat) (pos : Nat), pos < buf.length →
    buf.getD pos 0 ∈ buf
  | b :: _, 0, _ => by simp
  | b :: rest, pos + 1, h => by
    simp only [List.getD_cons_succ]
    exact List.mem_cons_of_mem b (getD_mem rest pos (by simpa using h))

theorem findCRLFAux_some (buf : List Nat) (stop : Nat) :
    ∀ k i j, findCRLFAux buf stop i k = some j →
      i ≤ j ∧ j < stop ∧ buf.getD j 0 = 13 ∧ buf.getD (j + 1) 0 = 10 := by
  intro k
  induction k with
  | zero => intro i j h; simp [findCRLFAux] at h
  | succ k ih =>
    intro i j h
    rw [findCRLFAux] at h
    by_cases hi : i < stop
    · rw [if_pos hi] at h
      by_cases hc : buf.getD i 0 = 13 ∧ buf.getD (i + 1) 0 = 10
      · rw [if_pos hc] at h
        cases h
        exact ⟨le_refl _, hi, hc.1, hc.2⟩
      · rw [if_neg hc] at h
        obtain ⟨h1, h2, h3, h4⟩ := ih (i + 1) j h
        exact ⟨by omega, h2, h3, h4⟩
    · rw [if_neg hi] at h
      cases h

theorem findCRLF_some {buf : List Nat} {i stop j : Nat}
    (h : findCRLF buf i stop = some j) :
    i ≤ j ∧ j < stop ∧ buf.getD j 0 = 13 ∧ buf.getD (j + 1) 0 = 10 :=
  findCRLFAux_some buf stop (stop - i) i j h

theorem listSlice_length (l : List Nat) (a b : Nat) :
    (listSlice l a b).length = min (b - a) (l.length - a) := by
  simp [listSlice]

theorem get_line_ok {buf : List Nat} {pos : Nat} {line : List Nat} {p' : Nat}
    (h : get_line buf pos = (.ok line, p')) :
    ∃ i, line = listSlice buf pos i ∧ p' = i + 2 ∧
      pos ≤ i ∧ i < buf.length - 1 ∧
      buf.getD i 0 = 13 ∧ buf.getD (i + 1) 0 = 10 := by
  unfold get_line at h
  cases hf : findCRLF buf pos (buf.length - 1) with
  | none => rw [hf] at h; simp at h
  | some i =>
    rw [hf] at h
    obtain ⟨h1, h2, h3, h4⟩ := findCRLF_some hf
    simp at h
    exact ⟨i, h.1.symm, h.2.symm, h1, h2, h3, h4⟩

/-! ### Monotonicity of the cursor primitives -/

theorem mono_pure {α : Type} (a : α) : M.mono (M.pure a) :=
  fun pos => le_refl pos

theorem mono_throw {α : Type} (e : Error) : M.mono (M.throw e : M α) :=
  fun pos => le_refl pos

theorem mono_bind {α β : Type} {x : M α} {f : α → M β}
    (hx : M.mono x) (hf : ∀ a, M.mono (f a)) : M.mono (M.bind x f) := by
  intro pos
  rw [M.bind_apply]
  rcases hx2 : x pos with ⟨r, p⟩
  have hp : pos ≤ p := by have := hx pos; rw [hx2] at this; exact this
  cases r with
  | ok a => exact le_trans hp (hf a p)
  | error e => exact hp

theorem mono_get_u8 (buf : List Nat) : M.mono (get_u8 buf) := by
  intro pos
  unfold get_u8
  split
  · exact le_refl pos
  · exact Nat.le_succ pos

theorem mono_peek_u8 (buf : List Nat) : M.mono (peek_u8 buf) := by
  intro pos
  unfold peek_u8
  split
  · exact le_refl pos
  · exact le_refl pos

theorem mono_skip (buf : List Nat) (n : Nat) : M.mono (skip buf n) := by
  intro pos
  unfold skip
  split
  · exact le_refl pos
  · exact Nat.le_add_right pos n

theorem mono_position : M.mono position :=
  fun pos => le_refl pos

theorem mono_get_line (buf : List Nat) : M.mono (get_line buf) := by
  intro pos
  unfold get_line
  cases hf : findCRLF buf pos (buf.length - 1) with
  | none => exact le_refl pos
  | some i =>
    have := (findCRLF_some hf).1
    simp only []
    omega

theorem mono_get_decimal (buf : List Nat) : M.mono (get_decimal buf) := by
  unfold get_decimal
  refine mono_bind (mono_get_line buf) (fun line => ?_)
  cases atoi_u64 line with
  | some v => exact mono_pure v
  | none => exact mono_throw _

theorem get_length_info_pos (buf : List Nat) (pos : Nat) :
    (get_length_info buf pos).2 = pos := by
  unfold get_length_info
  split
  · rfl
  · simp only []
    split
    · rfl
    · rfl

theorem mono_get_length_info (buf : List Nat) : M.mono (get_length_info buf) := by
  intro pos
  rw [get_length_info_pos]

theorem mono_get_vec_of_length (buf : List Nat) : M.mono (get_vec_of_length buf) := by
  intro pos
  unfold get_vec_of_length
  have := get_length_info_pos buf pos
  rcases h : get_length_info buf pos with ⟨r, p⟩
  rw [h] at this
  cases r with
  | ok len => simp only []; omega
  | error e => simp only []; omega

theorem mono_repeatM {act : M Unit} (hact : M.mono act) :
    ∀ n, M.mono (repeatM act n) := by
  intro n
  induction n with
  | zero => exact mono_pure ()
  | succ n ih =>
    rw [repeatM]
    exact mono_bind hact (fun _ => ih)

theorem mono_parseTimes {act : M Frame} (hact : M.mono act) :
    ∀ n, M.mono (parseTimes act n) := by
  intro n
  induction n with
  | zero => exact mono_pure []
  | succ n ih =>
    rw [parseTimes]
    exact mono_bind hact
      (fun f => mono_bind ih (fun rest => mono_pure (f :: rest)))

/-- `Frame::parse` never moves the read position backward, on success or
failure, regardless of fuel. -/
theorem mono_parse (buf : List Nat) : ∀ fuel, M.mono (parse buf fuel) := by
  intro fuel
  induction fuel with
  | zero => exact mono_throw _
  | succ fuel ih =>
    rw [parse]
    refine mono_bind (mono_get_u8 buf) (fun b => ?_)
    split
    · exact mono_bind (mono_get_vec_of_length buf)
        (fun data => mono_pure _)
    · split
      · refine mono_bind (mono_get_line buf) (fun line => ?_)
        cases from_utf8 line with
        | some s => exact mono_pure _
        | none => exact mono_throw _
      · split
        · refine mono_bind (mono_get_line buf) (fun line => ?_)
          cases from_utf8 line with
          | some s => exact mono_pure _
          | none => exact mono_throw _
        · split
          · exact mono_bind (mono_get_decimal buf) (fun len => mono_pure _)
          · split
            · refine mono_bind (mono_peek_u8 buf) (fun c => ?_)
              split
              · refine mono_bind (mono_get_line buf) (fun line => ?_)
                split
                · exact mono_pure _
                · exact mono_throw _
              · refine mono_bind (mono_get_decimal buf) (fun len => ?_)
                refine mono_bind mono_position (fun pos => ?_)
                split
                · exact mono_throw _
                · exact mono_bind (mono_skip buf (len + 2))
                    (fun _ => mono_pure _)
            · split
              · refine mono_bind (mono_get_decimal buf) (fun len => ?_)
                exact mono_bind (mono_parseTimes ih len)
                  (fun out => mono_pure _)
              · exact mono_throw _

/-- On a buffer that contains no `@` marker byte, `Frame::check` never
moves the read position backward either (the `@` branch is the only one
that sets the position absolutely). -/
theorem mono_check {buf : List Nat} (h64 : (64 : Nat) ∉ buf) :
    ∀ fuel, M.mono (check buf fuel) := by
  intro fuel
  induction fuel with
  | zero => exact mono_throw _
  | succ fuel ih =>
    intro pos
    rw [check, M.bind_apply]
    rcases hu : get_u8 buf pos with ⟨r, p⟩
    have hple : pos ≤ p := by
      have := mono_get_u8 buf pos; rw [hu] at this; exact this
    cases r with
    | error e => exact hple
    | ok b =>
      obtain ⟨hlt, hb, hp⟩ := get_u8_ok hu
      have hbne : ¬ b = VARIANT_LENGTH_MARK := by
        unfold VARIANT_LENGTH_MARK
        intro hcon
        exact h64 (by rw [← hcon, hb]; exact getD_mem buf pos hlt)
      simp only []
      rw [if_neg hbne]
      have hrest : ∀ q : Nat, q ≤ (((if b = SAMPLE_MARK then
          M.bind (get_line buf) (fun _ => M.pure ())
        else if b = COMMAND_MARK then
          M.bind (get_line buf) (fun _ => M.pure ())
        else if b = 58 then
          M.bind (get_decimal buf) (fun _ => M.pure ())
        else if b = 36 then
          M.bind (peek_u8 buf) (fun c =>
            if c = 45 then
              skip buf 4
            else
              M.bind (get_decimal buf) (fun len => skip buf (len + 2)))
        else if b = 42 then
          M.bind (get_decimal buf) (fun len => repeatM (check buf fuel) len)
        else
          M.throw (.Other ("protocol error; invalid frame type byte `"
            ++ toString b ++ "`")) : M Unit)) q).2 := by
        split
        · exact mono_bind (mono_get_line buf) (fun _ => mono_pure ())
        · split
          · exact mono_bind (mono_get_line buf) (fun _ => mono_pure ())
          · split
            · exact mono_bind (mono_get_decimal buf) (fun _ => mono_pure ())
            · split
              · refine mono_bind (mono_peek_u8 buf) (fun c => ?_)
                split
                · exact mono_skip buf 4
                · exact mono_bind (mono_get_decimal buf)
                    (fun len => mono_skip buf (len + 2))
              · split
                · exact mono_bind (mono_get_decimal buf)
                    (fun len => mono_repeatM ih len)
                · exact mono_throw _
      exact le_trans hple (hrest p)

/-! ### Parse success implies check success (no `@` marker in the buffer) -/

theorem parse_ok_check {buf : List Nat} (h64 : (64 : Nat) ∉ buf) :
    ∀ fuel pos f pos', parse buf fuel pos = (.ok f, pos') →
      check buf fuel pos = (.ok (), pos') := by
  intro fuel
  induction fuel with
  | zero =>
    intro pos f pos' h
    simp [parse, M.throw] at h
  | succ fuel ih =>
    have loop : ∀ n pos out pos',
        parseTimes (parse buf fuel) n pos = (.ok out, pos') →
        repeatM (check buf fuel) n pos = (.ok (), pos') := by
      intro n
      induction n with
      | zero =>
        intro pos out pos' h
        rw [parseTimes] at h
        simp only [M.pure_apply, Prod.mk.injEq, Except.ok.injEq] at h
        rw [repeatM, M.pure_apply, h.2]
      | succ n ihn =>
        intro pos out pos' h
        rw [parseTimes] at h
        obtain ⟨f1, p1, hparse, hrest⟩ := M.bind_ok_inv h
        obtain ⟨rest, p2, htimes, hpure⟩ := M.bind_ok_inv hrest
        have hp2 : p2 = pos' := congrArg Prod.snd hpure
        rw [repeatM, M.bind_apply, ih pos f1 p1 hparse]
        simp only []
        rw [← hp2]
        exact ihn p1 rest p2 htimes
    intro pos f pos' h
    rw [parse] at h
    rw [check]
    rw [M.bind_apply] at h
    rw [M.bind_apply]
    rcases hu : get_u8 buf pos with ⟨r, p⟩
    rw [hu] at h
    cases r with
    | error e => simp at h
    | ok b =>
      simp only [] at h ⊢
      obtain ⟨hlt, hb, hp⟩ := get_u8_ok hu
      have hbne : ¬ b = VARIANT_LENGTH_MARK := by
        unfold VARIANT_LENGTH_MARK
        intro hcon
        exact h64 (by rw [← hcon, hb]; exact getD_mem buf pos hlt)
      rw [if_neg hbne] at h ⊢
      simp only [SAMPLE_MARK, COMMAND_MARK]
      by_cases hb45 : b = 45
      · rw [if_pos hb45]
        rw [if_neg (by rw [hb45]; decide), if_pos hb45] at h
        obtain ⟨line, p1, hline, hconv⟩ := M.bind_ok_inv h
        cases hu8 : from_utf8 line with
        | none => rw [hu8] at hconv; simp [M.throw] at hconv
        | some s =>
          rw [hu8] at hconv
          have hp1 : p1 = pos' := congrArg Prod.snd hconv
          rw [M.bind_apply, hline, ← hp1]
          rfl
      · rw [if_neg hb45]
        by_cases hb43 : b = 43
        · rw [if_pos hb43]
          rw [if_pos hb43] at h
          obtain ⟨line, p1, hline, hconv⟩ := M.bind_ok_inv h
          cases hu8 : from_utf8 line with
          | none => rw [hu8] at hconv; simp [M.throw] at hconv
          | some s =>
            rw [hu8] at hconv
            have hp1 : p1 = pos' := congrArg Prod.snd hconv
            rw [M.bind_apply, hline, ← hp1]
            rfl
        · rw [if_neg hb43, if_neg hb45] at h
          rw [if_neg hb43]
          by_cases hb58 : b = 58
          · rw [if_pos hb58] at h ⊢
            obtain ⟨v, p1, hdec, hconv⟩ := M.bind_ok_inv h
            have hp1 : p1 = pos' := congrArg Prod.snd hconv
            rw [M.bind_apply, hdec, ← hp1]
            rfl
          · rw [if_neg hb58] at h ⊢
            by_cases hb36 : b = 36
            · rw [if_pos hb36] at h ⊢
              obtain ⟨c, p1, hpeek, hrest⟩ := M.bind_ok_inv h
              rw [M.bind_apply, hpeek]
              simp only []
              by_cases hc : c = 45
              · rw [if_pos hc] at hrest ⊢
                obtain ⟨line, p2, hline, hifnull⟩ := M.bind_ok_inv hrest
                by_cases hl : line = [45, 49]
                · rw [if_pos hl] at hifnull
                  have hp2 : p2 = pos' := congrArg Prod.snd hifnull
                  obtain ⟨i, hlineq, hp2i, hile, hilt, hcr, hlf⟩ :=
                    get_line_ok hline
                  have hlen2 : line.length = 2 := by rw [hl]; rfl
                  have hi : i = p1 + 2 := by
                    rw [hlineq, listSlice_length] at hlen2
                    omega
                  have hpos' : pos' = p1 + 4 := by omega
                  rw [hpos']
                  unfold skip
                  rw [if_neg (by omega)]
                · rw [if_neg hl] at hifnull
                  simp [M.throw] at hifnull
              · rw [if_neg hc] at hrest ⊢
                obtain ⟨v, p2, hdec, hbulk⟩ := M.bind_ok_inv hrest
                obtain ⟨q, p3, hq, hite⟩ := M.bind_ok_inv hbulk
                have hq1 : q = p2 := by
                  unfold position at hq
                  simp only [Prod.mk.injEq, Except.ok.injEq] at hq
                  exact hq.1.symm
                have hq2 : p3 = p2 := by
                  unfold position at hq
                  simp only [Prod.mk.injEq, Except.ok.injEq] at hq
                  exact hq.2.symm
                rw [hq1, hq2] at hite
                by_cases hrem : buf.length - p2 < v + 2
                · rw [if_pos hrem] at hite
                  simp [M.throw] at hite
                · rw [if_neg hrem] at hite
                  have hskip : skip buf (v + 2) p2 = (.ok (), p2 + (v + 2)) := by
                    unfold skip
                    rw [if_neg hrem]
                  rw [M.bind_apply, hskip] at hite
                  simp only [] at hite
                  have hpos' : p2 + (v + 2) = pos' := congrArg Prod.snd hite
                  rw [M.bind_apply, hdec]
                  simp only []
                  rw [← hpos']
                  exact hskip
            · rw [if_neg hb36] at h ⊢
              by_cases hb42 : b = 42
              · rw [if_pos hb42] at h ⊢
                obtain ⟨N, p1, hdec, hrest⟩ := M.bind_ok_inv h
                obtain ⟨out, p2, htimes, hpure⟩ := M.bind_ok_inv hrest
                have hpos' : p2 = pos' := congrArg Prod.snd hpure
                rw [M.bind_apply, hdec]
                simp only []
                rw [← hpos']
                exact loop N p1 out p2 htimes
              · rw [if_neg hb42] at h
                simp [M.throw] at h

/-! ### The array loop: successive parses, order, and error propagation -/

theorem chainParses_nil (buf : List Nat) (fuel pos pos' : Nat) :
    chainParses buf fuel pos [] pos' ↔ pos = pos' := Iff.rfl

theorem chainParses_cons (buf : List Nat) (fuel pos : Nat) (f : Frame)
    (fs : List Frame) (pos' : Nat) :
    chainParses buf fuel pos (f :: fs) pos' ↔
      ∃ p, parse buf fuel pos = (.ok f, p) ∧ chainParses buf fuel p fs pos' :=
  Iff.rfl

theorem parseTimes_ok_chain (buf : List Nat) (fuel : Nat) :
    ∀ n pos out pos', parseTimes (parse buf fuel) n pos = (.ok out, pos') →
      chainParses buf fuel pos out pos' ∧ out.length = n := by
  intro n
  induction n with
  | zero =>
    intro pos out pos' h
    rw [parseTimes] at h
    simp only [M.pure_apply, Prod.mk.injEq, Except.ok.injEq] at h
    obtain ⟨h1, h2⟩ := h
    subst h1
    subst h2
    exact ⟨rfl, rfl⟩
  | succ n ihn =>
    intro pos out pos' h
    rw [parseTimes] at h
    obtain ⟨f1, p1, hparse, hrest⟩ := M.bind_ok_inv h
    obtain ⟨rest, p2, htimes, hpure⟩ := M.bind_ok_inv hrest
    simp only [M.pure_apply, Prod.mk.injEq, Except.ok.injEq] at hpure
    obtain ⟨hout, hp2⟩ := hpure
    subst hout
    subst hp2
    obtain ⟨hchain, hlen⟩ := ihn p1 rest p2 htimes
    exact ⟨⟨p1, hparse, hchain⟩, by simp [hlen]⟩

theorem chain_parseTimes (buf : List Nat) (fuel : Nat) :
    ∀ out pos pos', chainParses buf fuel pos out pos' →
      parseTimes (parse buf fuel) out.length pos = (.ok out, pos') := by
  intro out
  induction out with
  | nil =>
    intro pos pos' h
    have h' : pos = pos' := h
    subst h'
    rfl
  | cons f fs ihn =>
    intro pos pos' h
    obtain ⟨p, hparse, hchain⟩ := (chainParses_cons buf fuel pos f fs pos').mp h
    rw [List.length_cons, parseTimes, M.bind_apply, hparse]
    simp only []
    rw [M.bind_apply, ihn p pos' hchain]
    rfl

theorem chain_error_parseTimes (buf : List Nat) (fuel : Nat) :
    ∀ out pos pos', chainParses buf fuel pos out pos' →
      ∀ n, out.length < n → ∀ e pe, parse buf fuel pos' = (.error e, pe) →
        parseTimes (parse buf fuel) n pos = (.error e, pe) := by
  intro out
  induction out with
  | nil =>
    intro pos pos' h n hn e pe he
    have h' : pos = pos' := h
    subst h'
    obtain ⟨m, rfl⟩ : ∃ m, n = m + 1 := ⟨n - 1, by omega⟩
    rw [parseTimes, M.bind_apply, he]
  | cons f fs ihn =>
    intro pos pos' h n hn e pe he
    obtain ⟨p, hparse, hchain⟩ := (chainParses_cons buf fuel pos f fs pos').mp h
    obtain ⟨m, rfl⟩ : ∃ m, n = m + 1 := ⟨n - 1, by omega⟩
    rw [parseTimes, M.bind_apply, hparse]
    simp only []
    rw [M.bind_apply, ihn p pos' hchain m
      (by simp only [List.length_cons] at hn; omega) e pe he]

/-! ### Strict decimal validity (spec-modelled `atoi`) -/

theorem atoi_u64_eq_none {line : List Nat}
    (hinv : ¬ (line ≠ [] ∧ (∀ b ∈ line, 48 ≤ b ∧ b ≤ 57) ∧
      line.foldl (fun acc b => acc * 10 + (b - 48)) 0 < 18446744073709551616)) :
    atoi_u64 line = none := by
  unfold atoi_u64
  by_cases h0 : line = []
  · rw [if_pos h0]
  · rw [if_neg h0]
    by_cases h1 : line.all (fun b => decide (48 ≤ b) && decide (b ≤ 57)) = true
    · rw [if_pos h1]
      simp only []
      have hall : ∀ b ∈ line, 48 ≤ b ∧ b ≤ 57 := by
        intro b hb
        have h2 := List.all_eq_true.mp h1 b hb
        simpa using h2
      by_cases h3 : line.foldl (fun acc b => acc * 10 + (b - 48)) 0
          < 18446744073709551616
      · exact absurd ⟨h0, hall, h3⟩ hinv
      · rw [if_neg h3]
    · rw [if_neg h1]

/-! ### Claim theorems -/

/-- Claim C1, counterexample: on the buffer `$-2\r\n` at position 0,
`check` succeeds (consuming 5 bytes) but `parse` fails with a
malformed-data error, so "check succeeds if and only if parse succeeds" is
false as stated. -/
theorem c1_check_parse_disagree :
    checkRun [36, 45, 50, 13, 10] 0 = (.ok (), 5) ∧
    parseRun [36, 45, 50, 13, 10] 0 =
      (.error (.Other "protocol error; invalid frame format"), 5) :=
  ⟨rfl, rfl⟩

/-- Claim C1, amended: on a buffer containing no `@` marker byte, whenever
`parse` succeeds at a position, `check` succeeds at that position and
leaves the cursor at exactly the same final position (same byte
consumption).  The converse direction of the original claim is false:
`check` can succeed where `parse` fails (see the counterexample), and for
`@`-marked frames the two phases consume different spans. -/
theorem c1_parse_check_agreement {buf : List Nat} (h64 : (64 : Nat) ∉ buf)
    (fuel pos : Nat) (f : Frame) (pos' : Nat)
    (h : parse buf fuel pos = (.ok f, pos')) :
    check buf fuel pos = (.ok (), pos') :=
  parse_ok_check h64 fuel pos f pos' h

/-- Claim C1, witness: the amended theorem applied to the integer frame
`:7\r\n`. -/
theorem c1_agreement_witness :
    (64 : Nat) ∉ [58, 55, 13, 10] ∧
    check [58, 55, 13, 10] 10 0 = (.ok (), 4) :=
  ⟨by decide,
   c1_parse_check_agreement (by decide) 10 0 (.Integer 7) 4 rfl⟩

/-- Claim C2, amended: with the next byte `@`, `check` reads a 4-byte
little-endian length immediately after the marker, returns `Incomplete`
(leaving the cursor just after the marker) when fewer than 4 bytes follow
the marker or when the declared payload extends past the end of the
buffer, and otherwise succeeds leaving the cursor at the absolute position
`length + 4 + 1` — which equals `1 + 4 + length` bytes beyond the start
only when the frame starts at position 0. -/
theorem c2_variant_length_check (fuel : Nat) (buf : List Nat) (pos : Nat)
    (h1 : pos < buf.length) (h2 : buf.getD pos 0 = 64) :
    check buf (fuel + 1) pos =
      if buf.length - (pos + 1) < 4 then (.error .Incomplete, pos + 1)
      else if buf.length - (pos + 1) <
          u32_from_le (buf.getD (pos + 1) 0) (buf.getD (pos + 2) 0)
            (buf.getD (pos + 3) 0) (buf.getD (pos + 4) 0) + 4 then
        (.error .Incomplete, pos + 1)
      else
        (.ok (), u32_from_le (buf.getD (pos + 1) 0) (buf.getD (pos + 2) 0)
          (buf.getD (pos + 3) 0) (buf.getD (pos + 4) 0) + 4 + 1) := by
  have hu : get_u8 buf pos = (.ok 64, pos + 1) := by
    rw [get_u8_of_lt h1, h2]
  rw [check, M.bind_apply, hu]
  simp only []
  rw [if_pos (show (64 : Nat) = VARIANT_LENGTH_MARK from rfl)]
  rw [M.bind_apply]
  have hgl : get_length_info buf (pos + 1) =
      (if buf.length - (pos + 1) < 4 then (.error .Incomplete, pos + 1)
       else if buf.length - (pos + 1) <
           u32_from_le (buf.getD (pos + 1) 0) (buf.getD (pos + 2) 0)
             (buf.getD (pos + 3) 0) (buf.getD (pos + 4) 0) + 4 then
         (.error .Incomplete, pos + 1)
       else
         (.ok (u32_from_le (buf.getD (pos + 1) 0) (buf.getD (pos + 2) 0)
           (buf.getD (pos + 3) 0) (buf.getD (pos + 4) 0)), pos + 1)) := rfl
  rw [hgl]
  by_cases hA : buf.length - (pos + 1) < 4
  · rw [if_pos hA, if_pos hA]
  · rw [if_neg hA, if_neg hA]
    by_cases hB : buf.length - (pos + 1) <
        u32_from_le (buf.getD (pos + 1) 0) (buf.getD (pos + 2) 0)
          (buf.getD (pos + 3) 0) (buf.getD (pos + 4) 0) + 4
    · rw [if_pos hB, if_pos hB]
    · rw [if_neg hB, if_neg hB]
      rfl

/-- Claim C2, counterexample: an `@` frame starting at position 1 of
`[0, 64, 0, 0, 0, 0]` (declared length 0) passes `check` with the cursor
left at the absolute position 5, not at `1 + (1 + 4 + 0) = 6` bytes beyond
the starting position as the claim requires. -/
theorem c2_variant_length_absolute :
    checkRun [0, 64, 0, 0, 0, 0] 1 = (.ok (), 5) ∧ (5 : Nat) ≠ 1 + (1 + 4 + 0) :=
  ⟨rfl, by decide⟩

/-- Claim C2, witness: the amended theorem evaluated on `@` + length 3 +
`abc`, which checks successfully ending at absolute position 8. -/
theorem c2_variant_length_witness :
    check [64, 3, 0, 0, 0, 97, 98, 99] 7 0 = (.ok (), 8) :=
  (c2_variant_length_check 6 [64, 3, 0, 0, 0, 97, 98, 99] 0 (by decide)
    (by decide)).trans (by rfl)

/-- Claim C3: at an `*` marker whose count line decodes to `N`, (i) a chain
of `N` successive sub-frame parses makes the whole parse succeed with an
`Array` of exactly those `N` frames in wire order, ending where the chain
ends; (ii) any successful parse is such an `Array` of exactly `N` chained
sub-frames; (iii) if after some shorter chain the next sub-frame parse
fails — `Incomplete` or a malformed-data error — the whole array parse
fails with exactly that error. -/
theorem c3_array_parse (fuel : Nat) (buf : List Nat) (pos N pos₁ : Nat)
    (h1 : pos < buf.length) (h2 : buf.getD pos 0 = 42)
    (hd : get_decimal buf (pos + 1) = (.ok N, pos₁)) :
    (∀ l pos', chainParses buf fuel pos₁ l pos' → l.length = N →
       parse buf (fuel + 1) pos = (.ok (.Array l), pos')) ∧
    (∀ f pos', parse buf (fuel + 1) pos = (.ok f, pos') →
       ∃ l, f = .Array l ∧ l.length = N ∧ chainParses buf fuel pos₁ l pos') ∧
    (∀ l p e pe, chainParses buf fuel pos₁ l p → l.length < N →
       parse buf fuel p = (.error e, pe) →
       parse buf (fuel + 1) pos = (.error e, pe)) := by
  have hu : get_u8 buf pos = (.ok 42, pos + 1) := by
    rw [get_u8_of_lt h1, h2]
  have hstep : parse buf (fuel + 1) pos =
      M.bind (parseTimes (parse buf fuel) N)
        (fun out => M.pure (.Array out)) pos₁ := by
    rw [parse, M.bind_apply, hu]
    simp only []
    rw [if_neg (by decide : ¬ (42 : Nat) = VARIANT_LENGTH_MARK),
      if_neg (by decide : ¬ (42 : Nat) = 43),
      if_neg (by decide : ¬ (42 : Nat) = 45),
      if_neg (by decide : ¬ (42 : Nat) = 58),
      if_neg (by decide : ¬ (42 : Nat) = 36),
      if_true]
    rw [M.bind_apply, hd]
  refine ⟨?_, ?_, ?_⟩
  · intro l pos' hch hlen
    rw [hstep, M.bind_apply, ← hlen, chain_parseTimes buf fuel l pos₁ pos' hch]
    rfl
  · intro f pos' hp
    rw [hstep] at hp
    obtain ⟨out, p2, htimes, hpure⟩ := M.bind_ok_inv hp
    obtain ⟨hch, hlen⟩ := parseTimes_ok_chain buf fuel N pos₁ out p2 htimes
    simp only [M.pure_apply, Prod.mk.injEq, Except.ok.injEq] at hpure
    exact ⟨out, hpure.1.symm, hlen, hpure.2 ▸ hch⟩
  · intro l p e pe hch hlen he
    rw [hstep, M.bind_apply,
      chain_error_parseTimes buf fuel l pos₁ p hch N hlen e pe he]

/-- Claim C3, witness: the concrete array `*2\r\n$3\r\nfoo\r\n:7\r\n`
parses to `Array [Bulk "foo", Integer 7]` via part (i) of the claim
theorem. -/
theorem c3_array_witness :
    parse [42, 50, 13, 10, 36, 51, 13, 10, 102, 111, 111, 13, 10,
      58, 55, 13, 10] 5 0 =
      (.ok (.Array [.Bulk [102, 111, 111], .Integer 7]), 17) :=
  (c3_array_parse 4 [42, 50, 13, 10, 36, 51, 13, 10, 102, 111, 111, 13, 10,
      58, 55, 13, 10] 0 2 4 (by decide) (by decide) rfl).1
    [.Bulk [102, 111, 111], .Integer 7] 17 ⟨13, rfl, 17, rfl, rfl⟩ rfl

/-- Claim C4: at a `$` marker whose next byte is not `-` and whose length
line decodes to `L` ending at `pos₁`, `parse` returns `Incomplete`
(cursor left at `pos₁`) when fewer than `L + 2` bytes follow the length
line, and otherwise returns a `Bulk` frame holding exactly the `L` bytes
`buf[pos₁ .. pos₁+L)` — independent of all other bytes — with the cursor
advanced past the payload and its trailing CRLF. -/
theorem c4_bulk_parse (fuel : Nat) (buf : List Nat) (pos L pos₁ : Nat)
    (h1 : pos < buf.length) (h2 : buf.getD pos 0 = 36)
    (h3 : pos + 1 < buf.length) (h4 : buf.getD (pos + 1) 0 ≠ 45)
    (h5 : get_decimal buf (pos + 1) = (.ok L, pos₁)) :
    parse buf (fuel + 1) pos =
      if buf.length - pos₁ < L + 2 then (.error .Incomplete, pos₁)
      else (.ok (.Bulk (listSlice buf pos₁ (pos₁ + L))), pos₁ + (L + 2)) := by
  have hu : get_u8 buf pos = (.ok 36, pos + 1) := by
    rw [get_u8_of_lt h1, h2]
  have hpk : peek_u8 buf (pos + 1) = (.ok (buf.getD (pos + 1) 0), pos + 1) := by
    unfold peek_u8
    rw [if_neg (by omega)]
  rw [parse, M.bind_apply, hu]
  simp only []
  rw [if_neg (by decide : ¬ (36 : Nat) = VARIANT_LENGTH_MARK),
    if_neg (by decide : ¬ (36 : Nat) = 43),
    if_neg (by decide : ¬ (36 : Nat) = 45),
    if_neg (by decide : ¬ (36 : Nat) = 58),
    if_true]
  rw [M.bind_apply, hpk]
  simp only []
  rw [if_neg h4, M.bind_apply, h5]
  simp only []
  rw [M.bind_apply, show position pos₁ = (.ok pos₁, pos₁) from rfl]
  simp only []
  by_cases hrem : buf.length - pos₁ < L + 2
  · rw [if_pos hrem, if_pos hrem]
    rfl
  · rw [if_neg hrem, if_neg hrem, M.bind_apply,
      show skip buf (L + 2) pos₁ = (.ok (), pos₁ + (L + 2)) from by
        unfold skip; rw [if_neg hrem]]
    rfl

/-- Claim C4, witness: `$3\r\nfoo\r\n` parses to `Bulk "foo"` ending at
position 9; the same theorem instantiated on the truncated `$5\r\nfo`
yields `Incomplete`. -/
theorem c4_bulk_witness :
    parse [36, 51, 13, 10, 102, 111, 111, 13, 10] 5 0 =
      (.ok (.Bulk [102, 111, 111]), 9) ∧
    parse [36, 53, 13, 10, 102, 111] 5 0 = (.error .Incomplete, 4) := by
  constructor
  · exact (c4_bulk_parse 4 [36, 51, 13, 10, 102, 111, 111, 13, 10] 0 3 4
      (by decide) (by decide) (by decide) (by decide) rfl).trans
      (by rw [if_neg (by decide)]; rfl)
  · exact (c4_bulk_parse 4 [36, 53, 13, 10, 102, 111] 0 5 4
      (by decide) (by decide) (by decide) (by decide) rfl).trans
      (by rw [if_pos (by decide)])

/-- Claim C5: at a `$` marker whose next byte is `-`, with the following
line scanned successfully, `parse` returns `Null` exactly when that line
is the two bytes `-1`, and a malformed-data error on any other
null-shaped line; in both cases the cursor ends just past the line's
CRLF. -/
theorem c5_null_parse (fuel : Nat) (buf : List Nat) (pos : Nat)
    (line : List Nat) (p₁ : Nat)
    (h1 : pos < buf.length) (h2 : buf.getD pos 0 = 36)
    (h3 : pos + 1 < buf.length) (h4 : buf.getD (pos + 1) 0 = 45)
    (h5 : get_line buf (pos + 1) = (.ok line, p₁)) :
    parse buf (fuel + 1) pos =
      if line = [45, 49] then (.ok .Null, p₁)
      else (.error (.Other "protocol error; invalid frame format"), p₁) := by
  have hu : get_u8 buf pos = (.ok 36, pos + 1) := by
    rw [get_u8_of_lt h1, h2]
  have hpk : peek_u8 buf (pos + 1) = (.ok 45, pos + 1) := by
    unfold peek_u8
    rw [if_neg (by omega), h4]
  rw [parse, M.bind_apply, hu]
  simp only []
  rw [if_neg (by decide : ¬ (36 : Nat) = VARIANT_LENGTH_MARK),
    if_neg (by decide : ¬ (36 : Nat) = 43),
    if_neg (by decide : ¬ (36 : Nat) = 45),
    if_neg (by decide : ¬ (36 : Nat) = 58),
    if_true]
  rw [M.bind_apply, hpk]
  simp only []
  rw [if_true, M.bind_apply, h5]
  simp only []
  by_cases hl : line = [45, 49]
  · rw [if_pos hl, if_pos hl]
    rfl
  · rw [if_neg hl, if_neg hl]
    rfl

/-- Claim C5, witness: `$-1\r\n` parses to `Null`, and the null-shaped
line `-2` is rejected as malformed, both via the claim theorem. -/
theorem c5_null_witness :
    parse [36, 45, 49, 13, 10] 5 0 = (.ok .Null, 5) ∧
    parse [36, 45, 50, 13, 10] 5 0 =
      (.error (.Other "protocol error; invalid frame format"), 5) := by
  constructor
  · exact (c5_null_parse 4 [36, 45, 49, 13, 10] 0 [45, 49] 5
      (by decide) (by decide) (by decide) (by decide) rfl).trans
      (by rw [if_pos rfl])
  · exact (c5_null_parse 4 [36, 45, 50, 13, 10] 0 [45, 50] 5
      (by decide) (by decide) (by decide) (by decide) rfl).trans
      (by rw [if_neg (by decide)])

/-- Claim C6: `get_decimal` scans one CRLF-terminated line, and whenever
that line is not a valid non-negative 64-bit decimal (non-empty, all
ASCII digits, value below 2^64), it fails with the malformed-data error,
leaving the cursor where the line scan ended.  (The `atoi` crate version
is pinned outside `src/`; the decimal grammar is modelled from the
spec.) -/
theorem c6_decimal_malformed (buf : List Nat) (pos : Nat) (line : List Nat)
    (p' : Nat) (h : get_line buf pos = (.ok line, p'))
    (hinv : ¬ (line ≠ [] ∧ (∀ b ∈ line, 48 ≤ b ∧ b ≤ 57) ∧
      line.foldl (fun acc b => acc * 10 + (b - 48)) 0 < 18446744073709551616)) :
    get_decimal buf pos =
      (.error (.Other "protocol error; invalid frame format"), p') := by
  rw [get_decimal, M.bind_apply, h]
  simp only []
  rw [atoi_u64_eq_none hinv]
  rfl

/-- Claim C6, witness: the line `12x` of the input `:12x\r\n` is not a
valid decimal, so `get_decimal` fails malformed there (via the claim
theorem), and the full `parse` of `:12x\r\n` surfaces the same error. -/
theorem c6_decimal_witness :
    get_decimal [58, 49, 50, 120, 13, 10] 1 =
      (.error (.Other "protocol error; invalid frame format"), 6) ∧
    parseRun [58, 49, 50, 120, 13, 10] 0 =
      (.error (.Other "protocol error; invalid frame format"), 6) :=
  ⟨c6_decimal_malformed [58, 49, 50, 120, 13, 10] 1 [49, 50, 120] 6 rfl
    (by decide), rfl⟩

/-- Claim C7: `skip n` advances the position by exactly `n` bytes when at
least `n` bytes remain, and fails with `Incomplete`, leaving the position
unchanged, when fewer than `n` bytes remain. -/
theorem c7_skip_spec (buf : List Nat) (n pos : Nat) :
    (n ≤ buf.length - pos → skip buf n pos = (.ok (), pos + n)) ∧
    (buf.length - pos < n → skip buf n pos = (.error .Incomplete, pos)) := by
  constructor
  · intro h
    unfold skip
    rw [if_neg (by omega)]
  · intro h
    unfold skip
    rw [if_pos h]

/-- Claim C7, witness: both branches of the skip specification on a
4-byte buffer. -/
theorem c7_skip_witness :
    skip [1, 2, 3, 4] 2 1 = (.ok (), 3) ∧
    skip [1, 2, 3, 4] 4 1 = (.error .Incomplete, 1) :=
  ⟨(c7_skip_spec [1, 2, 3, 4] 2 1).1 (by decide),
   (c7_skip_spec [1, 2, 3, 4] 4 1).2 (by decide)⟩

/-- Claim C8, counterexample: `check` on the buffer with an `@` frame at
position 10 (declared length 0) succeeds with the cursor at the absolute
position 5 — strictly before the starting position 10 — so a single
`check` call does move the read position backward. -/
theorem c8_check_moves_backward :
    checkRun [0, 0, 0, 0, 0, 0, 0, 0, 0, 0, 64, 0, 0, 0, 0] 10 =
      (.ok (), 5) ∧ (5 : Nat) < 10 :=
  ⟨rfl, by decide⟩

/-- Claim C8, amended: `parse` only ever moves the read position forward
(on success and on failure alike); `check` does too on every buffer that
contains no `@` marker byte — the absolute `set_position` in the `@`
branch of `check` is the only backward move. -/
theorem c8_monotonicity :
    (∀ (buf : List Nat) (fuel pos : Nat), pos ≤ (parse buf fuel pos).2) ∧
    (∀ (buf : List Nat), (64 : Nat) ∉ buf →
      ∀ fuel pos, pos ≤ (check buf fuel pos).2) :=
  ⟨fun buf fuel pos => mono_parse buf fuel pos,
   fun _ h64 fuel pos => mono_check h64 fuel pos⟩

/-- Claim C8, witness: the monotonicity theorem applied to the `@`-free
buffer `:7\r\n`. -/
theorem c8_monotonicity_witness :
    0 ≤ (parse [58, 55, 13, 10] 5 0).2 ∧
    0 ≤ (check [58, 55, 13, 10] 5 0).2 :=
  ⟨c8_monotonicity.1 [58, 55, 13, 10] 5 0,
   c8_monotonicity.2 [58, 55, 13, 10] (by decide) 5 0⟩

/-- Claim C9: the `Display` rendering of an `Array` frame skips its first
element entirely — a one-element array renders as the empty string and a
two-element array of integers 7 and 8 renders as a space followed by `8`
only — contradicting "renders every element of the array, including the
first, in order". -/
theorem c9_display_skips_first :
    display (Frame.Array [Frame.Integer 7]) = "" ∧
    display (Frame.Array [Frame.Integer 7, Frame.Integer 8]) = " 8" := by
  constructor
  · simp [display, displayTail]
  · simp [display, displayTail]
    decide

/-- Claim C10: at a `$` marker whose following byte is `-`, `check`
succeeds exactly when at least 4 bytes follow the `$` (failing
`Incomplete` with the cursor just past the marker otherwise), consuming
5 bytes in total and never inspecting the 4 skipped bytes. -/
theorem c10_check_null_shape (fuel : Nat) (buf : List Nat) (pos : Nat)
    (h1 : pos < buf.length) (h2 : buf.getD pos 0 = 36)
    (h3 : pos + 1 < buf.length) (h4 : buf.getD (pos + 1) 0 = 45) :
    check buf (fuel + 1) pos =
      if buf.length - (pos + 1) < 4 then (.error .Incomplete, pos + 1)
      else (.ok (), pos + 5) := by
  have hu : get_u8 buf pos = (.ok 36, pos + 1) := by
    rw [get_u8_of_lt h1, h2]
  have hpk : peek_u8 buf (pos + 1) = (.ok 45, pos + 1) := by
    unfold peek_u8
    rw [if_neg (by omega), h4]
  rw [check, M.bind_apply, hu]
  simp only []
  rw [if_neg (by decide : ¬ (36 : Nat) = VARIANT_LENGTH_MARK),
    if_neg (by decide : ¬ (36 : Nat) = SAMPLE_MARK),
    if_neg (by decide : ¬ (36 : Nat) = COMMAND_MARK),
    if_neg (by decide : ¬ (36 : Nat) = 58),
    if_true]
  rw [M.bind_apply, hpk]
  simp only []
  rw [if_true]
  unfold skip
  by_cases hA : buf.length - (pos + 1) < 4
  · rw [if_pos hA]
  · rw [if_neg hA]

/-- Claim C10, witness: `$-2\r\n` passes `check` (5 bytes consumed, the
skipped content never inspected) while `parse` rejects it as malformed. -/
theorem c10_check_null_witness :
    check [36, 45, 50, 13, 10] 5 0 = (.ok (), 5) ∧
    parse [36, 45, 50, 13, 10] 5 0 =
      (.error (.Other "protocol error; invalid frame format"), 5) :=
  ⟨(c10_check_null_shape 4 [36, 45, 50, 13, 10] 0 (by decide) (by decide)
      (by decide) (by decide)).trans (by rw [if_neg (by decide)]),
   rfl⟩

end Bamboo
